import Mathlib

/-!
# Verification of the libveritas-go FFI boundary layer

A shallow embedding of `libveritas_uniffi.go`, the UniFFI-generated Go
bindings of the Veritas verification core.  Byte streams are modelled as
`List Nat` (each element a byte value below 256).  The Go `Read` helpers
have no error return: every failure path calls `panic`, which the model
renders as the `ReadRes.panicked` outcome.  The Go `Write` helpers panic
only on oversized lengths, rendered as `Option.none` from the writers.
-/

set_option autoImplicit false

namespace LibveritasUniffi

/-- Outcome of a Go `Read`-style decoder on a byte stream: either a value
together with the unconsumed remainder, or a Go panic (the only failure
mode the generated bindings have). -/
inductive ReadRes (α : Type) where
  | ok (val : α) (rest : List Nat)
  | panicked
  deriving DecidableEq, Repr

/-- Sequencing of byte-stream readers (a panic aborts the whole read). -/
def ReadRes.bind {α β : Type} : ReadRes α → (α → List Nat → ReadRes β) → ReadRes β
  | .panicked, _ => .panicked
  | .ok a r, f => f a r

@[simp] theorem ReadRes.bind_ok {α β : Type} (a : α) (r : List Nat)
    (f : α → List Nat → ReadRes β) : ReadRes.bind (.ok a r) f = f a r := rfl

@[simp] theorem ReadRes.bind_panicked {α β : Type} (f : α → List Nat → ReadRes β) :
    ReadRes.bind .panicked f = .panicked := rfl

/-- Two's-complement reinterpretation of one byte, as Go's `int8`. -/
def toInt8 (b : Nat) : Int :=
  if b < 128 then (b : Int) else (b : Int) - 256

/-- Two's-complement reinterpretation of a 32-bit big-endian word, as Go's `int32`. -/
def toInt32 (n : Nat) : Int :=
  if n < 2 ^ 31 then (n : Int) else (n : Int) - 2 ^ 32

/-- Go `readInt8`: one byte, two's complement; earlier EOF is a panic
(`binary.Read` returns an error, which the helper panics on). -/
def readInt8 : List Nat → ReadRes Int
  | [] => .panicked
  | b :: rest => .ok (toInt8 b) rest

/-- Go `readUint32`: four big-endian bytes; truncation is a panic. -/
def readUint32 : List Nat → ReadRes Nat
  | b0 :: b1 :: b2 :: b3 :: rest =>
      .ok (b0 * 2 ^ 24 + b1 * 2 ^ 16 + b2 * 2 ^ 8 + b3) rest
  | _ => .panicked

/-- Go `readInt32`: four big-endian bytes, two's complement; truncation is a panic. -/
def readInt32 : List Nat → ReadRes Int
  | b0 :: b1 :: b2 :: b3 :: rest =>
      .ok (toInt32 (b0 * 2 ^ 24 + b1 * 2 ^ 16 + b2 * 2 ^ 8 + b3)) rest
  | _ => .panicked

/-- Go `readUint64`: eight big-endian bytes; truncation is a panic. -/
def readUint64 : List Nat → ReadRes Nat
  | b0 :: b1 :: b2 :: b3 :: b4 :: b5 :: b6 :: b7 :: rest =>
      .ok (b0 * 2 ^ 56 + b1 * 2 ^ 48 + b2 * 2 ^ 40 + b3 * 2 ^ 32 +
           b4 * 2 ^ 24 + b5 * 2 ^ 16 + b6 * 2 ^ 8 + b7) rest
  | _ => .panicked

/-- Big-endian byte decomposition of a 32-bit word (what `binary.Write`
with `binary.BigEndian` emits for a `uint32`). -/
def u32be (n : Nat) : List Nat :=
  [n / 2 ^ 24 % 256, n / 2 ^ 16 % 256, n / 2 ^ 8 % 256, n % 256]

/-- Big-endian byte decomposition of a 64-bit word. -/
def u64be (n : Nat) : List Nat :=
  [n / 2 ^ 56 % 256, n / 2 ^ 48 % 256, n / 2 ^ 40 % 256, n / 2 ^ 32 % 256,
   n / 2 ^ 24 % 256, n / 2 ^ 16 % 256, n / 2 ^ 8 % 256, n % 256]

/-- Go `writeUint32`: big-endian bytes of the word. -/
def writeUint32 (n : Nat) : List Nat := u32be n

/-- Go `writeUint64`: big-endian bytes of the word. -/
def writeUint64 (n : Nat) : List Nat := u64be n

/-- Go `writeInt32`: big-endian bytes of the two's-complement 32-bit pattern. -/
def writeInt32 (v : Int) : List Nat := u32be (v % 2 ^ 32).toNat

/-- Go `writeInt8`: the two's-complement byte of the value. -/
def writeInt8 (v : Int) : List Nat := [(v % 256).toNat]

/-- `math.MaxInt32`, the length guard used by the string/bytes writers. -/
def maxInt32 : Nat := 2 ^ 31 - 1

/-- A reader only inspects the front of the stream: appending bytes to a
successful input leaves the value unchanged and appends to the remainder. -/
def extOk {α : Type} (r : List Nat → ReadRes α) : Prop :=
  ∀ l a rest s, r l = .ok a rest → r (l ++ s) = .ok a (rest ++ s)

theorem extOk_readInt8 : extOk readInt8 := by
  intro l a rest s h
  cases l with
  | nil => simp [readInt8] at h
  | cons b t =>
      simp [readInt8] at h ⊢
      exact ⟨h.1, by rw [h.2]⟩

theorem extOk_readUint32 : extOk readUint32 := by
  intro l a rest s h
  rcases l with _ | ⟨b0, _ | ⟨b1, _ | ⟨b2, _ | ⟨b3, t⟩⟩⟩⟩ <;>
    simp_all [readUint32]

theorem extOk_readInt32 : extOk readInt32 := by
  intro l a rest s h
  rcases l with _ | ⟨b0, _ | ⟨b1, _ | ⟨b2, _ | ⟨b3, t⟩⟩⟩⟩ <;>
    simp_all [readInt32]

theorem extOk_readUint64 : extOk readUint64 := by
  intro l a rest s h
  rcases l with _ | ⟨b0, _ | ⟨b1, _ | ⟨b2, _ | ⟨b3,
    _ | ⟨b4, _ | ⟨b5, _ | ⟨b6, _ | ⟨b7, t⟩⟩⟩⟩⟩⟩⟩⟩ <;>
    simp_all [readUint64]

theorem readUint32_u32be (n : Nat) (hn : n < 2 ^ 32) (rest : List Nat) :
    readUint32 (u32be n ++ rest) = .ok n rest := by
  simp only [u32be, List.cons_append, List.nil_append, readUint32]
  congr 1
  omega

theorem readUint64_u64be (n : Nat) (hn : n < 2 ^ 64) (rest : List Nat) :
    readUint64 (u64be n ++ rest) = .ok n rest := by
  simp only [u64be, List.cons_append, List.nil_append, readUint64]
  congr 1
  omega

theorem writeInt32_ofNat (n : Nat) (hn : n < 2 ^ 32) :
    writeInt32 (n : Int) = u32be n := by
  simp only [writeInt32]
  congr 1
  omega

theorem readInt32_writeInt32 (n : Nat) (hn : n < 2 ^ 31) (rest : List Nat) :
    readInt32 (writeInt32 (n : Int) ++ rest) = .ok (n : Int) rest := by
  rw [writeInt32_ofNat n (by omega)]
  simp only [u32be, List.cons_append, List.nil_append, readInt32]
  congr 1
  have : n / 2 ^ 24 % 256 * 2 ^ 24 + n / 2 ^ 16 % 256 * 2 ^ 16 +
      n / 2 ^ 8 % 256 * 2 ^ 8 + n % 256 = n := by omega
  rw [this, toInt32, if_pos hn]

/-- Go `FfiConverterBytes.Read`: a signed 32-bit length prefix followed by
exactly that many payload bytes.  A negative length makes `make([]byte, n)`
panic; a short stream makes the read-length check panic. -/
def bytesRead (l : List Nat) : ReadRes (List Nat) :=
  (readInt32 l).bind fun len rest =>
    if len < 0 then .panicked
    else if (rest.length : Int) < len then .panicked
    else .ok (rest.take len.toNat) (rest.drop len.toNat)

/-- Go `FfiConverterString.Read`: identical wire layout to `bytesRead`
(a Go string is its UTF-8 byte sequence, modelled as the byte list). -/
def stringRead (l : List Nat) : ReadRes (List Nat) :=
  (readInt32 l).bind fun len rest =>
    if len < 0 then .panicked
    else if (rest.length : Int) < len then .panicked
    else .ok (rest.take len.toNat) (rest.drop len.toNat)

/-- Go `FfiConverterBytes.Write`: panics (`none`) past `math.MaxInt32`,
otherwise the length prefix followed by the payload. -/
def bytesWrite (b : List Nat) : Option (List Nat) :=
  if b.length > maxInt32 then none
  else some (writeInt32 (b.length : Int) ++ b)

/-- Go `FfiConverterString.Write`: same layout as `bytesWrite`. -/
def stringWrite (s : List Nat) : Option (List Nat) :=
  if s.length > maxInt32 then none
  else some (writeInt32 (s.length : Int) ++ s)

theorem bytesRead_roundtrip (b enc rest : List Nat) (h : bytesWrite b = some enc) :
    bytesRead (enc ++ rest) = .ok b rest := by
  simp only [bytesWrite] at h
  split at h
  · exact absurd h (by simp)
  · rename_i hlen
    have hlen31 : b.length < 2 ^ 31 := by simp [maxInt32] at hlen; omega
    cases h
    rw [List.append_assoc, bytesRead,
      readInt32_writeInt32 b.length hlen31 (b ++ rest)]
    simp only [ReadRes.bind_ok]
    rw [if_neg (by omega),
      if_neg (by simp only [List.length_append]; push_cast; omega)]
    congr 1 <;> simp

theorem stringRead_roundtrip (s enc rest : List Nat) (h : stringWrite s = some enc) :
    stringRead (enc ++ rest) = .ok s rest := by
  have : bytesWrite s = some enc := by
    simpa [bytesWrite, stringWrite] using h
  simpa [stringRead, bytesRead] using bytesRead_roundtrip s enc rest this

theorem extOk_bytesRead : extOk bytesRead := by
  intro l a rest s h
  simp only [bytesRead] at h ⊢
  cases hr : readInt32 l with
  | panicked => rw [hr] at h; simp at h
  | ok len r =>
      rw [hr] at h
      rw [extOk_readInt32 l len r s hr]
      simp only [ReadRes.bind_ok] at h ⊢
      split at h
      · simp at h
      · rename_i hneg
        rw [if_neg hneg]
        split at h
        · simp at h
        · rename_i hfit
          have hfit2 : ¬ ((r ++ s).length : Int) < len := by
            simp only [List.length_append]
            push_cast
            omega
          rw [if_neg hfit2]
          have hle : len.toNat ≤ r.length := by omega
          cases h
          congr 1
          · exact List.take_append_of_le_length hle
          · rw [List.drop_append_of_le_length hle]

theorem extOk_stringRead : extOk stringRead := by
  intro l a rest s h
  have : bytesRead l = .ok a rest := by simpa [bytesRead, stringRead] using h
  simpa [bytesRead, stringRead] using extOk_bytesRead l a rest s this

/-- Go `FfiConverterOptionalBytes.Read`: one flag byte; zero means absent,
anything else is followed by the payload. -/
def optionalBytesRead (l : List Nat) : ReadRes (Option (List Nat)) :=
  (readInt8 l).bind fun flag rest =>
    if flag = 0 then .ok none rest
    else (bytesRead rest).bind fun b r => .ok (some b) r

/-- Go `FfiConverterOptionalBytes.Write`: flag byte 0 when absent, flag
byte 1 followed by the payload when present. -/
def optionalBytesWrite : Option (List Nat) → Option (List Nat)
  | none => some (writeInt8 0)
  | some b => (bytesWrite b).map (fun e => writeInt8 1 ++ e)

theorem optionalBytesRead_roundtrip (x : Option (List Nat)) (enc rest : List Nat)
    (h : optionalBytesWrite x = some enc) :
    optionalBytesRead (enc ++ rest) = .ok x rest := by
  cases x with
  | none =>
      simp only [optionalBytesWrite, Option.some_inj] at h
      cases h
      simp [optionalBytesRead, writeInt8, readInt8, toInt8]
  | some b =>
      simp only [optionalBytesWrite, Option.map_eq_some'] at h
      obtain ⟨e, he, henc⟩ := h
      cases henc
      rw [List.append_assoc, optionalBytesRead]
      simp only [writeInt8, readInt8]
      norm_num [toInt8]
      rw [bytesRead_roundtrip b e rest he]
      rfl

theorem extOk_optionalBytesRead : extOk optionalBytesRead := by
  intro l a rest s h
  simp only [optionalBytesRead] at h ⊢
  cases hr : readInt8 l with
  | panicked => rw [hr] at h; simp at h
  | ok flag r =>
      rw [hr] at h
      rw [extOk_readInt8 l flag r s hr]
      simp only [ReadRes.bind_ok] at h ⊢
      split at h
      · rename_i hz
        rw [if_pos hz]
        cases h
        rfl
      · rename_i hz
        rw [if_neg hz]
        cases hb : bytesRead r with
        | panicked => rw [hb] at h; simp at h
        | ok b r2 =>
            rw [hb] at h
            rw [extOk_bytesRead r b r2 s hb]
            simp only [ReadRes.bind_ok] at h ⊢
            cases h
            rfl

/-- Any reader that only inspects the front of the stream and accepts a
given encoding in full must panic on every strict truncation of it. -/
theorem truncation_panics {α : Type} (r : List Nat → ReadRes α) (hx : extOk r)
    (x : α) (enc : List Nat) (h0 : r enc = .ok x [])
    (m : Nat) (hm : m < enc.length) : r (enc.take m) = .panicked := by
  cases hr : r (enc.take m) with
  | panicked => rfl
  | ok y rest =>
      have h2 := hx (enc.take m) y rest (enc.drop m) hr
      rw [List.take_append_drop, h0] at h2
      injection h2 with hy hrest
      have hdrop : enc.drop m = [] := by
        cases (List.append_eq_nil.mp hrest.symm) with
        | intro h1 h2 => exact h2
      have := List.drop_eq_nil_iff.mp hdrop
      omega

/-- Go record `VeritasOffchainData`. -/
structure VeritasOffchainData where
  seq : Nat
  data : List Nat
  deriving DecidableEq, Repr

/-- Go `FfiConverterVeritasOffchainData.Read`: `seq` then `data`, in order. -/
def offchainDataRead (l : List Nat) : ReadRes VeritasOffchainData :=
  (readUint32 l).bind fun s r =>
    (bytesRead r).bind fun d r2 => .ok ⟨s, d⟩ r2

/-- Go `FfiConverterVeritasOffchainData.Write`: `seq` then `data`, in order. -/
def offchainDataWrite (x : VeritasOffchainData) : Option (List Nat) :=
  (bytesWrite x.data).map (fun e => writeUint32 x.seq ++ e)

/-- Go `FfiConverterOptionalVeritasOffchainData.Read`. -/
def optionalOffchainDataRead (l : List Nat) : ReadRes (Option VeritasOffchainData) :=
  (readInt8 l).bind fun flag rest =>
    if flag = 0 then .ok none rest
    else (offchainDataRead rest).bind fun o r => .ok (some o) r

/-- Go `FfiConverterOptionalVeritasOffchainData.Write`. -/
def optionalOffchainDataWrite : Option VeritasOffchainData → Option (List Nat)
  | none => some (writeInt8 0)
  | some o => (offchainDataWrite o).map (fun e => writeInt8 1 ++ e)

theorem offchainDataRead_roundtrip (x : VeritasOffchainData) (enc rest : List Nat)
    (hseq : x.seq < 2 ^ 32) (h : offchainDataWrite x = some enc) :
    offchainDataRead (enc ++ rest) = .ok x rest := by
  simp only [offchainDataWrite, Option.map_eq_some'] at h
  obtain ⟨e, he, henc⟩ := h
  cases henc
  rw [List.append_assoc, offchainDataRead, writeUint32,
    readUint32_u32be x.seq hseq (e ++ rest)]
  simp only [ReadRes.bind_ok]
  rw [bytesRead_roundtrip x.data e rest he]
  rfl

theorem extOk_offchainDataRead : extOk offchainDataRead := by
  intro l a rest s h
  simp only [offchainDataRead] at h ⊢
  cases hr : readUint32 l with
  | panicked => rw [hr] at h; simp at h
  | ok n r =>
      rw [hr] at h
      rw [extOk_readUint32 l n r s hr]
      simp only [ReadRes.bind_ok] at h ⊢
      cases hb : bytesRead r with
      | panicked => rw [hb] at h; simp at h
      | ok d r2 =>
          rw [hb] at h
          rw [extOk_bytesRead r d r2 s hb]
          simp only [ReadRes.bind_ok] at h ⊢
          cases h
          rfl

theorem optionalOffchainDataRead_roundtrip (x : Option VeritasOffchainData)
    (enc rest : List Nat) (hseq : ∀ o, x = some o → o.seq < 2 ^ 32)
    (h : optionalOffchainDataWrite x = some enc) :
    optionalOffchainDataRead (enc ++ rest) = .ok x rest := by
  cases x with
  | none =>
      simp only [optionalOffchainDataWrite, Option.some_inj] at h
      cases h
      simp [optionalOffchainDataRead, writeInt8, readInt8, toInt8]
  | some o =>
      simp only [optionalOffchainDataWrite, Option.map_eq_some'] at h
      obtain ⟨e, he, henc⟩ := h
      cases henc
      rw [List.append_assoc, optionalOffchainDataRead]
      simp only [writeInt8, readInt8]
      norm_num [toInt8]
      rw [offchainDataRead_roundtrip o e rest (hseq o rfl) he]
      rfl

theorem extOk_optionalOffchainDataRead : extOk optionalOffchainDataRead := by
  intro l a rest s h
  simp only [optionalOffchainDataRead] at h ⊢
  cases hr : readInt8 l with
  | panicked => rw [hr] at h; simp at h
  | ok flag r =>
      rw [hr] at h
      rw [extOk_readInt8 l flag r s hr]
      simp only [ReadRes.bind_ok] at h ⊢
      split at h
      · rename_i hz
        rw [if_pos hz]
        cases h
        rfl
      · rename_i hz
        rw [if_neg hz]
        cases hb : offchainDataRead r with
        | panicked => rw [hb] at h; simp at h
        | ok o r2 =>
            rw [hb] at h
            rw [extOk_offchainDataRead r o r2 s hb]
            simp only [ReadRes.bind_ok] at h ⊢
            cases h
            rfl

/-- Go record `VeritasCertificate` (strings modelled as their byte lists). -/
structure VeritasCertificate where
  subject : List Nat
  certType : List Nat
  bytes : List Nat
  deriving DecidableEq, Repr

/-- Go `FfiConverterVeritasCertificate.Read`: subject, certType, bytes, in order. -/
def certificateRead (l : List Nat) : ReadRes VeritasCertificate :=
  (stringRead l).bind fun subj r1 =>
    (stringRead r1).bind fun ct r2 =>
      (bytesRead r2).bind fun b r3 => .ok ⟨subj, ct, b⟩ r3

/-- Go `FfiConverterVeritasCertificate.Write`: subject, certType, bytes, in
order (a panic in a nested writer aborts the whole write). -/
def certificateWrite (c : VeritasCertificate) : Option (List Nat) :=
  match stringWrite c.subject, stringWrite c.certType, bytesWrite c.bytes with
  | some e1, some e2, some e3 => some (e1 ++ e2 ++ e3)
  | _, _, _ => none

theorem certificateRead_roundtrip (c : VeritasCertificate) (enc rest : List Nat)
    (h : certificateWrite c = some enc) :
    certificateRead (enc ++ rest) = .ok c rest := by
  cases h1 : stringWrite c.subject with
  | none => simp [certificateWrite, h1] at h
  | some e1 =>
  cases h2 : stringWrite c.certType with
  | none => simp [certificateWrite, h1, h2] at h
  | some e2 =>
  cases h3 : bytesWrite c.bytes with
  | none => simp [certificateWrite, h1, h2, h3] at h
  | some e3 =>
  simp only [certificateWrite, h1, h2, h3, Option.some_inj] at h
  cases h
  rw [List.append_assoc, List.append_assoc, certificateRead,
    stringRead_roundtrip c.subject e1 (e2 ++ (e3 ++ rest)) h1]
  simp only [ReadRes.bind_ok]
  rw [stringRead_roundtrip c.certType e2 (e3 ++ rest) h2]
  simp only [ReadRes.bind_ok]
  rw [bytesRead_roundtrip c.bytes e3 rest h3]
  rfl

theorem extOk_certificateRead : extOk certificateRead := by
  intro l a rest s h
  simp only [certificateRead] at h ⊢
  cases h1 : stringRead l with
  | panicked => rw [h1] at h; simp at h
  | ok subj r1 =>
      rw [h1] at h
      rw [extOk_stringRead l subj r1 s h1]
      simp only [ReadRes.bind_ok] at h ⊢
      cases h2 : stringRead r1 with
      | panicked => rw [h2] at h; simp at h
      | ok ct r2 =>
          rw [h2] at h
          rw [extOk_stringRead r1 ct r2 s h2]
          simp only [ReadRes.bind_ok] at h ⊢
          cases h3 : bytesRead r2 with
          | panicked => rw [h3] at h; simp at h
          | ok b r3 =>
              rw [h3] at h
              rw [extOk_bytesRead r2 b r3 s h3]
              simp only [ReadRes.bind_ok] at h ⊢
              cases h
              rfl

/-- Go tagged variant `VeritasCommitmentState` with its three variants. -/
inductive VeritasCommitmentState where
  | Exists (stateRoot : List Nat) (prevRoot : Option (List Nat))
      (rollingHash : List Nat) (blockHeight : Nat) (receiptHash : Option (List Nat))
  | Empty
  | Unknown
  deriving DecidableEq, Repr

/-- Go `FfiConverterVeritasCommitmentState.Read`: a 4-byte discriminant read
with `readInt32`; tag 1 is `Exists` followed by its five fields, tag 2 is
`Empty`, tag 3 is `Unknown`, and any other tag panics. -/
def commitmentStateRead (l : List Nat) : ReadRes VeritasCommitmentState :=
  (readInt32 l).bind fun id rest =>
    if id = 1 then
      (bytesRead rest).bind fun sr r1 =>
        (optionalBytesRead r1).bind fun pr r2 =>
          (bytesRead r2).bind fun rh r3 =>
            (readUint32 r3).bind fun bh r4 =>
              (optionalBytesRead r4).bind fun rc r5 =>
                .ok (.Exists sr pr rh bh rc) r5
    else if id = 2 then .ok .Empty rest
    else if id = 3 then .ok .Unknown rest
    else .panicked

/-- Go `FfiConverterVeritasCommitmentState.Write`: discriminant 1/2/3 then
the variant fields. -/
def commitmentStateWrite : VeritasCommitmentState → Option (List Nat)
  | .Exists sr pr rh bh rc =>
      match bytesWrite sr, optionalBytesWrite pr, bytesWrite rh,
          optionalBytesWrite rc with
      | some e1, some e2, some e3, some e5 =>
          some (writeInt32 1 ++ e1 ++ e2 ++ e3 ++ writeUint32 bh ++ e5)
      | _, _, _, _ => none
  | .Empty => some (writeInt32 2)
  | .Unknown => some (writeInt32 3)

/-- The only `uint32`-typed payload fields of the tagged variants are
bounded by the Go machine type; the model carries the bound explicitly. -/
def wfCommitmentState : VeritasCommitmentState → Bool
  | .Exists _ _ _ bh _ => bh < 2 ^ 32
  | .Empty => true
  | .Unknown => true

theorem readInt32_writeInt32_int (v : Int) (h0 : 0 ≤ v) (h1 : v < 2 ^ 31)
    (rest : List Nat) : readInt32 (writeInt32 v ++ rest) = .ok v rest := by
  have hv : v = (v.toNat : Int) := (Int.toNat_of_nonneg h0).symm
  rw [hv]
  exact readInt32_writeInt32 v.toNat (by omega) rest

theorem commitmentStateRead_roundtrip (x : VeritasCommitmentState)
    (enc rest : List Nat) (hwf : wfCommitmentState x = true)
    (h : commitmentStateWrite x = some enc) :
    commitmentStateRead (enc ++ rest) = .ok x rest := by
  cases x with
  | Empty =>
      simp only [commitmentStateWrite, Option.some_inj] at h
      cases h
      rw [commitmentStateRead,
        readInt32_writeInt32_int 2 (by norm_num) (by norm_num) rest]
      norm_num
  | Unknown =>
      simp only [commitmentStateWrite, Option.some_inj] at h
      cases h
      rw [commitmentStateRead,
        readInt32_writeInt32_int 3 (by norm_num) (by norm_num) rest]
      norm_num
  | Exists sr pr rh bh rc =>
      simp only [wfCommitmentState, decide_eq_true_eq] at hwf
      cases c1 : bytesWrite sr with
      | none => simp [commitmentStateWrite, c1] at h
      | some e1 =>
      cases c2 : optionalBytesWrite pr with
      | none => simp [commitmentStateWrite, c1, c2] at h
      | some e2 =>
      cases c3 : bytesWrite rh with
      | none => simp [commitmentStateWrite, c1, c2, c3] at h
      | some e3 =>
      cases c5 : optionalBytesWrite rc with
      | none => simp [commitmentStateWrite, c1, c2, c3, c5] at h
      | some e5 =>
      simp only [commitmentStateWrite, c1, c2, c3, c5, Option.some_inj] at h
      cases h
      simp only [List.append_assoc]
      rw [commitmentStateRead, readInt32_writeInt32_int 1 (by norm_num)
        (by norm_num) (e1 ++ (e2 ++ (e3 ++ (writeUint32 bh ++ (e5 ++ rest)))))]
      simp only [ReadRes.bind_ok]
      norm_num
      rw [bytesRead_roundtrip sr e1 _ c1]
      simp only [ReadRes.bind_ok]
      rw [optionalBytesRead_roundtrip pr e2 _ c2]
      simp only [ReadRes.bind_ok]
      rw [bytesRead_roundtrip rh e3 _ c3]
      simp only [ReadRes.bind_ok]
      rw [writeUint32, readUint32_u32be bh hwf (e5 ++ rest)]
      simp only [ReadRes.bind_ok]
      rw [optionalBytesRead_roundtrip rc e5 rest c5]
      rfl

theorem extOk_commitmentStateRead : extOk commitmentStateRead := by
  intro l a rest s h
  simp only [commitmentStateRead] at h ⊢
  cases h0 : readInt32 l with
  | panicked => rw [h0] at h; simp at h
  | ok id r0 =>
      rw [h0] at h
      rw [extOk_readInt32 l id r0 s h0]
      simp only [ReadRes.bind_ok] at h ⊢
      by_cases hid1 : id = 1
      · rw [if_pos hid1] at h ⊢
        cases h1 : bytesRead r0 with
        | panicked => rw [h1] at h; simp at h
        | ok sr r1 =>
            rw [h1] at h
            rw [extOk_bytesRead r0 sr r1 s h1]
            simp only [ReadRes.bind_ok] at h ⊢
            cases h2 : optionalBytesRead r1 with
            | panicked => rw [h2] at h; simp at h
            | ok pr r2 =>
                rw [h2] at h
                rw [extOk_optionalBytesRead r1 pr r2 s h2]
                simp only [ReadRes.bind_ok] at h ⊢
                cases h3 : bytesRead r2 with
                | panicked => rw [h3] at h; simp at h
                | ok rh r3 =>
                    rw [h3] at h
                    rw [extOk_bytesRead r2 rh r3 s h3]
                    simp only [ReadRes.bind_ok] at h ⊢
                    cases h4 : readUint32 r3 with
                    | panicked => rw [h4] at h; simp at h
                    | ok bh r4 =>
                        rw [h4] at h
                        rw [extOk_readUint32 r3 bh r4 s h4]
                        simp only [ReadRes.bind_ok] at h ⊢
                        cases h5 : optionalBytesRead r4 with
                        | panicked => rw [h5] at h; simp at h
                        | ok rc r5 =>
                            rw [h5] at h
                            rw [extOk_optionalBytesRead r4 rc r5 s h5]
                            simp only [ReadRes.bind_ok] at h ⊢
                            cases h
                            rfl
      · rw [if_neg hid1] at h ⊢
        by_cases hid2 : id = 2
        · rw [if_pos hid2] at h ⊢
          cases h
          rfl
        · rw [if_neg hid2] at h ⊢
          by_cases hid3 : id = 3
          · rw [if_pos hid3] at h ⊢
            cases h
            rfl
          · rw [if_neg hid3] at h
            simp at h

/-- Go tagged variant `VeritasDelegateState` with its three variants. -/
inductive VeritasDelegateState where
  | Exists (scriptPubkey : List Nat) (data : Option (List Nat))
      (offchainData : Option VeritasOffchainData)
  | Empty
  | Unknown
  deriving DecidableEq, Repr

/-- Go `FfiConverterVeritasDelegateState.Read`: a 4-byte discriminant read
with `readInt32`; tag 1 is `Exists` followed by its three fields, tag 2 is
`Empty`, tag 3 is `Unknown`, and any other tag panics. -/
def delegateStateRead (l : List Nat) : ReadRes VeritasDelegateState :=
  (readInt32 l).bind fun id rest =>
    if id = 1 then
      (bytesRead rest).bind fun sp r1 =>
        (optionalBytesRead r1).bind fun d r2 =>
          (optionalOffchainDataRead r2).bind fun oc r3 =>
            .ok (.Exists sp d oc) r3
    else if id = 2 then .ok .Empty rest
    else if id = 3 then .ok .Unknown rest
    else .panicked

/-- Go `FfiConverterVeritasDelegateState.Write`: discriminant 1/2/3 then
the variant fields. -/
def delegateStateWrite : VeritasDelegateState → Option (List Nat)
  | .Exists sp d oc =>
      match bytesWrite sp, optionalBytesWrite d, optionalOffchainDataWrite oc with
      | some e1, some e2, some e3 => some (writeInt32 1 ++ e1 ++ e2 ++ e3)
      | _, _, _ => none
  | .Empty => some (writeInt32 2)
  | .Unknown => some (writeInt32 3)

/-- The `uint32` bound on the optional offchain payload's sequence number. -/
def wfDelegateState : VeritasDelegateState → Bool
  | .Exists _ _ (some o) => o.seq < 2 ^ 32
  | _ => true

theorem delegateStateRead_roundtrip (x : VeritasDelegateState)
    (enc rest : List Nat) (hwf : wfDelegateState x = true)
    (h : delegateStateWrite x = some enc) :
    delegateStateRead (enc ++ rest) = .ok x rest := by
  cases x with
  | Empty =>
      simp only [delegateStateWrite, Option.some_inj] at h
      cases h
      rw [delegateStateRead,
        readInt32_writeInt32_int 2 (by norm_num) (by norm_num) rest]
      norm_num
  | Unknown =>
      simp only [delegateStateWrite, Option.some_inj] at h
      cases h
      rw [delegateStateRead,
        readInt32_writeInt32_int 3 (by norm_num) (by norm_num) rest]
      norm_num
  | Exists sp d oc =>
      have hseq : ∀ o, oc = some o → o.seq < 2 ^ 32 := by
        intro o ho
        cases ho
        simpa [wfDelegateState] using hwf
      cases c1 : bytesWrite sp with
      | none => simp [delegateStateWrite, c1] at h
      | some e1 =>
      cases c2 : optionalBytesWrite d with
      | none => simp [delegateStateWrite, c1, c2] at h
      | some e2 =>
      cases c3 : optionalOffchainDataWrite oc with
      | none => simp [delegateStateWrite, c1, c2, c3] at h
      | some e3 =>
      simp only [delegateStateWrite, c1, c2, c3, Option.some_inj] at h
      cases h
      simp only [List.append_assoc]
      rw [delegateStateRead, readInt32_writeInt32_int 1 (by norm_num)
        (by norm_num) (e1 ++ (e2 ++ (e3 ++ rest)))]
      simp only [ReadRes.bind_ok]
      norm_num
      rw [bytesRead_roundtrip sp e1 _ c1]
      simp only [ReadRes.bind_ok]
      rw [optionalBytesRead_roundtrip d e2 _ c2]
      simp only [ReadRes.bind_ok]
      rw [optionalOffchainDataRead_roundtrip oc e3 rest hseq c3]
      rfl

theorem extOk_delegateStateRead : extOk delegateStateRead := by
  intro l a rest s h
  simp only [delegateStateRead] at h ⊢
  cases h0 : readInt32 l with
  | panicked => rw [h0] at h; simp at h
  | ok id r0 =>
      rw [h0] at h
      rw [extOk_readInt32 l id r0 s h0]
      simp only [ReadRes.bind_ok] at h ⊢
      by_cases hid1 : id = 1
      · rw [if_pos hid1] at h ⊢
        cases h1 : bytesRead r0 with
        | panicked => rw [h1] at h; simp at h
        | ok sp r1 =>
            rw [h1] at h
            rw [extOk_bytesRead r0 sp r1 s h1]
            simp only [ReadRes.bind_ok] at h ⊢
            cases h2 : optionalBytesRead r1 with
            | panicked => rw [h2] at h; simp at h
            | ok d r2 =>
                rw [h2] at h
                rw [extOk_optionalBytesRead r1 d r2 s h2]
                simp only [ReadRes.bind_ok] at h ⊢
                cases h3 : optionalOffchainDataRead r2 with
                | panicked => rw [h3] at h; simp at h
                | ok oc r3 =>
                    rw [h3] at h
                    rw [extOk_optionalOffchainDataRead r2 oc r3 s h3]
                    simp only [ReadRes.bind_ok] at h ⊢
                    cases h
                    rfl
      · rw [if_neg hid1] at h ⊢
        by_cases hid2 : id = 2
        · rw [if_pos hid2] at h ⊢
          cases h
          rfl
        · rw [if_neg hid2] at h ⊢
          by_cases hid3 : id = 3
          · rw [if_pos hid3] at h ⊢
            cases h
            rfl
          · rw [if_neg hid3] at h
            simp at h

/-- Go `VeritasError` payload: exactly two kinds, each carrying a
human-readable message (the message modelled as its byte sequence). -/
inductive VeritasErrorData where
  | InvalidInput (message : List Nat)
  | VerificationFailed (message : List Nat)
  deriving DecidableEq, Repr

/-- Go `FfiConverterVeritasError.Read`: a `uint32` error ID, then the
message; ID 1 is `InvalidInput`, ID 2 is `VerificationFailed`, anything
else panics. -/
def errorRead (l : List Nat) : ReadRes VeritasErrorData :=
  (readUint32 l).bind fun errorID rest =>
    if errorID = 1 then
      (stringRead rest).bind fun m r => .ok (.InvalidInput m) r
    else if errorID = 2 then
      (stringRead rest).bind fun m r => .ok (.VerificationFailed m) r
    else .panicked

/-- Go `FfiConverterVeritasError.Write`: tag 1 or 2 (via `writeInt32`),
then the message. -/
def errorWrite : VeritasErrorData → Option (List Nat)
  | .InvalidInput m =>
      match stringWrite m with
      | some e => some (writeInt32 1 ++ e)
      | none => none
  | .VerificationFailed m =>
      match stringWrite m with
      | some e => some (writeInt32 2 ++ e)
      | none => none

theorem writeInt32_one_as_u32be : writeInt32 1 = u32be 1 := by decide

theorem writeInt32_two_as_u32be : writeInt32 2 = u32be 2 := by decide

theorem errorRead_roundtrip (e : VeritasErrorData) (enc rest : List Nat)
    (h : errorWrite e = some enc) :
    errorRead (enc ++ rest) = .ok e rest := by
  cases e with
  | InvalidInput m =>
      cases c1 : stringWrite m with
      | none => simp [errorWrite, c1] at h
      | some em =>
          simp only [errorWrite, c1, Option.some_inj] at h
          cases h
          rw [List.append_assoc, errorRead, writeInt32_one_as_u32be,
            readUint32_u32be 1 (by norm_num) (em ++ rest)]
          simp only [ReadRes.bind_ok, if_pos rfl]
          rw [stringRead_roundtrip m em rest c1]
          rfl
  | VerificationFailed m =>
      cases c1 : stringWrite m with
      | none => simp [errorWrite, c1] at h
      | some em =>
          simp only [errorWrite, c1, Option.some_inj] at h
          cases h
          rw [List.append_assoc, errorRead, writeInt32_two_as_u32be,
            readUint32_u32be 2 (by norm_num) (em ++ rest)]
          norm_num
          rw [stringRead_roundtrip m em rest c1]
          rfl

theorem extOk_errorRead : extOk errorRead := by
  intro l a rest s h
  simp only [errorRead] at h ⊢
  cases h0 : readUint32 l with
  | panicked => rw [h0] at h; simp at h
  | ok errorID r0 =>
      rw [h0] at h
      rw [extOk_readUint32 l errorID r0 s h0]
      simp only [ReadRes.bind_ok] at h ⊢
      by_cases hid1 : errorID = 1
      · rw [if_pos hid1] at h ⊢
        cases h1 : stringRead r0 with
        | panicked => rw [h1] at h; simp at h
        | ok m r1 =>
            rw [h1] at h
            rw [extOk_stringRead r0 m r1 s h1]
            simp only [ReadRes.bind_ok] at h ⊢
            cases h
            rfl
      · rw [if_neg hid1] at h ⊢
        by_cases hid2 : errorID = 2
        · rw [if_pos hid2] at h ⊢
          cases h1 : stringRead r0 with
          | panicked => rw [h1] at h; simp at h
          | ok m r1 =>
              rw [h1] at h
              rw [extOk_stringRead r0 m r1 s h1]
              simp only [ReadRes.bind_ok] at h ⊢
              cases h
              rfl
        · rw [if_neg hid2] at h
          simp at h

/-- Sample values used by the round-trip witnesses. -/
def sampleCommitment : VeritasCommitmentState :=
  .Exists [170] (some [7]) [1, 2] 5 none

def sampleDelegate : VeritasDelegateState :=
  .Exists [3, 4] none (some ⟨9, [8]⟩)

def sampleCertificate : VeritasCertificate := ⟨[97], [99, 100], [1]⟩

def sampleOffchain : VeritasOffchainData := ⟨2, [5]⟩

/-- C1: round-trip law for the wire converters: for every valid value of the
tagged-variant and record entities at the boundary (`CommitmentState` with
its three variants, `DelegateState` with its three variants, `Certificate`,
`OffchainData`), reading back what was written yields the same value,
`Read (Write x) = x`, with any trailing bytes left untouched. -/
theorem spec_c1_roundtrip :
    (∀ x enc rest, wfCommitmentState x = true →
        commitmentStateWrite x = some enc →
        commitmentStateRead (enc ++ rest) = .ok x rest) ∧
    (∀ x enc rest, wfDelegateState x = true →
        delegateStateWrite x = some enc →
        delegateStateRead (enc ++ rest) = .ok x rest) ∧
    (∀ c enc rest, certificateWrite c = some enc →
        certificateRead (enc ++ rest) = .ok c rest) ∧
    (∀ o enc rest, o.seq < 2 ^ 32 → offchainDataWrite o = some enc →
        offchainDataRead (enc ++ rest) = .ok o rest) :=
  ⟨commitmentStateRead_roundtrip, delegateStateRead_roundtrip,
   certificateRead_roundtrip, fun o enc rest hseq h =>
     offchainDataRead_roundtrip o enc rest hseq h⟩

/-- C1 witness: the round-trip evaluated at concrete sample values of each
entity. -/
theorem spec_c1_roundtrip_witness :
    commitmentStateRead ((commitmentStateWrite sampleCommitment).getD []) =
      .ok sampleCommitment [] ∧
    delegateStateRead ((delegateStateWrite sampleDelegate).getD []) =
      .ok sampleDelegate [] ∧
    certificateRead ((certificateWrite sampleCertificate).getD []) =
      .ok sampleCertificate [] ∧
    offchainDataRead ((offchainDataWrite sampleOffchain).getD []) =
      .ok sampleOffchain [] := by
  refine ⟨?_, ?_, ?_, ?_⟩
  · have h : commitmentStateWrite sampleCommitment =
        some ((commitmentStateWrite sampleCommitment).getD []) := by decide
    simpa using spec_c1_roundtrip.1 sampleCommitment _ [] (by decide) h
  · have h : delegateStateWrite sampleDelegate =
        some ((delegateStateWrite sampleDelegate).getD []) := by decide
    simpa using spec_c1_roundtrip.2.1 sampleDelegate _ [] (by decide) h
  · have h : certificateWrite sampleCertificate =
        some ((certificateWrite sampleCertificate).getD []) := by decide
    simpa using spec_c1_roundtrip.2.2.1 sampleCertificate _ [] h
  · have h : offchainDataWrite sampleOffchain =
        some ((offchainDataWrite sampleOffchain).getD []) := by decide
    simpa using spec_c1_roundtrip.2.2.2 sampleOffchain _ [] (by decide) h

/-- C2 counterexample: the claim says malformed input makes decoding "fail
with an InvalidInput error carrying a diagnostic message; it never panics".
On the code, `FfiConverterVeritasCommitmentState.Read` hits its `default`
branch on the unknown discriminant tag 9 and calls Go `panic`; its return
type has no error channel at all, so no `InvalidInput` value is (or can be)
produced at this layer. -/
theorem spec_c2_counterexample :
    commitmentStateRead [0, 0, 0, 9] = .panicked := by decide

/-- C2 (amended): malformed input never silently succeeds and never yields
a wrong value, but the failure mode of the Go converters is a panic, not an
`InvalidInput` error: truncating any valid encoding by 1..N bytes panics,
an unknown discriminant tag panics, and a length prefix that is negative or
exceeds the remaining bytes panics. -/
theorem spec_c2_decode_robustness :
    (∀ x enc, wfCommitmentState x = true → commitmentStateWrite x = some enc →
        ∀ m, m < enc.length → commitmentStateRead (enc.take m) = .panicked) ∧
    (∀ x enc, wfDelegateState x = true → delegateStateWrite x = some enc →
        ∀ m, m < enc.length → delegateStateRead (enc.take m) = .panicked) ∧
    (∀ c enc, certificateWrite c = some enc →
        ∀ m, m < enc.length → certificateRead (enc.take m) = .panicked) ∧
    (∀ e enc, errorWrite e = some enc →
        ∀ m, m < enc.length → errorRead (enc.take m) = .panicked) ∧
    (∀ l id rest, readInt32 l = .ok id rest → id ≠ 1 → id ≠ 2 → id ≠ 3 →
        commitmentStateRead l = .panicked ∧ delegateStateRead l = .panicked) ∧
    (∀ l len rest, readInt32 l = .ok len rest →
        (len < 0 ∨ (rest.length : Int) < len) →
        stringRead l = .panicked ∧ bytesRead l = .panicked) := by
  refine ⟨?_, ?_, ?_, ?_, ?_, ?_⟩
  · intro x enc hwf h m hm
    exact truncation_panics commitmentStateRead extOk_commitmentStateRead x enc
      (by simpa using commitmentStateRead_roundtrip x enc [] hwf h) m hm
  · intro x enc hwf h m hm
    exact truncation_panics delegateStateRead extOk_delegateStateRead x enc
      (by simpa using delegateStateRead_roundtrip x enc [] hwf h) m hm
  · intro c enc h m hm
    exact truncation_panics certificateRead extOk_certificateRead c enc
      (by simpa using certificateRead_roundtrip c enc [] h) m hm
  · intro e enc h m hm
    exact truncation_panics errorRead extOk_errorRead e enc
      (by simpa using errorRead_roundtrip e enc [] h) m hm
  · intro l id rest hr h1 h2 h3
    constructor
    · rw [commitmentStateRead, hr]
      simp [h1, h2, h3]
    · rw [delegateStateRead, hr]
      simp [h1, h2, h3]
  · intro l len rest hr hbad
    constructor
    · rw [stringRead, hr]
      simp only [ReadRes.bind_ok]
      rcases hbad with hb | hb
      · rw [if_pos hb]
      · by_cases hneg : len < 0
        · rw [if_pos hneg]
        · rw [if_neg hneg, if_pos hb]
    · rw [bytesRead, hr]
      simp only [ReadRes.bind_ok]
      rcases hbad with hb | hb
      · rw [if_pos hb]
      · by_cases hneg : len < 0
        · rw [if_pos hneg]
        · rw [if_neg hneg, if_pos hb]

/-- C2 witness: the amended robustness statement evaluated at a concrete
truncation — the `Empty` encoding `[0,0,0,2]` cut to its first two bytes. -/
theorem spec_c2_decode_robustness_witness :
    commitmentStateRead (List.take 2 [0, 0, 0, 2]) = .panicked :=
  spec_c2_decode_robustness.1 .Empty [0, 0, 0, 2] (by decide) (by decide) 2
    (by decide)

/-- C3: every error value crossing the boundary is exactly one of two kinds,
`InvalidInput` under wire tag 1 and `VerificationFailed` under wire tag 2,
each carrying a message; the converter never produces a value for any other
tag and never consumes any other kind. -/
theorem spec_c3_error_taxonomy :
    (∀ e : VeritasErrorData,
        (∃ m, e = .InvalidInput m) ∨ (∃ m, e = .VerificationFailed m)) ∧
    (∀ l tag rest, readUint32 l = .ok tag rest → tag ≠ 1 → tag ≠ 2 →
        errorRead l = .panicked) ∧
    (∀ e enc rest, errorWrite e = some enc →
        errorRead (enc ++ rest) = .ok e rest) ∧
    (∀ e enc, errorWrite e = some enc →
        enc.take 4 = [0, 0, 0, 1] ∨ enc.take 4 = [0, 0, 0, 2]) := by
  refine ⟨?_, ?_, errorRead_roundtrip, ?_⟩
  · intro e
    cases e with
    | InvalidInput m => exact Or.inl ⟨m, rfl⟩
    | VerificationFailed m => exact Or.inr ⟨m, rfl⟩
  · intro l tag rest hr h1 h2
    rw [errorRead, hr]
    simp [h1, h2]
  · intro e enc h
    cases e with
    | InvalidInput m =>
        cases c1 : stringWrite m with
        | none => simp [errorWrite, c1] at h
        | some em =>
            simp only [errorWrite, c1, Option.some_inj] at h
            cases h
            left
            rw [writeInt32_one_as_u32be]
            rfl
    | VerificationFailed m =>
        cases c1 : stringWrite m with
        | none => simp [errorWrite, c1] at h
        | some em =>
            simp only [errorWrite, c1, Option.some_inj] at h
            cases h
            right
            rw [writeInt32_two_as_u32be]
            rfl

/-- C3 witness: an unknown error tag (3) makes the error converter panic,
and a concrete tag-1 buffer decodes to `InvalidInput`. -/
theorem spec_c3_error_taxonomy_witness :
    errorRead [0, 0, 0, 3] = .panicked ∧
    errorRead ([0, 0, 0, 1, 0, 0, 0, 1, 104] ++ []) =
      .ok (.InvalidInput [104]) [] := by
  constructor
  · exact spec_c3_error_taxonomy.2.1 [0, 0, 0, 3] 3 [] (by decide)
      (by decide) (by decide)
  · exact spec_c3_error_taxonomy.2.2.1 (.InvalidInput [104])
      [0, 0, 0, 1, 0, 0, 0, 1, 104] [] (by decide)

/-- C5: the wire layout of the tagged variants: a leading 4-byte
discriminant (1 = `Exists`, 2 = `Empty`, 3 = `Unknown`) followed by the
variant fields; optional fields are a one-byte presence flag (0 absent,
1 followed by the payload); decoding inverts the mapping for tags 1-3. -/
theorem spec_c5_wire_layout :
    (commitmentStateWrite .Empty = some [0, 0, 0, 2]) ∧
    (commitmentStateWrite .Unknown = some [0, 0, 0, 3]) ∧
    (delegateStateWrite .Empty = some [0, 0, 0, 2]) ∧
    (delegateStateWrite .Unknown = some [0, 0, 0, 3]) ∧
    (∀ sr pr rh bh rc enc,
        commitmentStateWrite (.Exists sr pr rh bh rc) = some enc →
        enc.take 4 = [0, 0, 0, 1]) ∧
    (∀ sp d oc enc, delegateStateWrite (.Exists sp d oc) = some enc →
        enc.take 4 = [0, 0, 0, 1]) ∧
    (optionalBytesWrite none = some [0]) ∧
    (∀ b e, bytesWrite b = some e → optionalBytesWrite (some b) = some (1 :: e)) ∧
    (optionalOffchainDataWrite none = some [0]) ∧
    (∀ o e, offchainDataWrite o = some e →
        optionalOffchainDataWrite (some o) = some (1 :: e)) ∧
    (∀ rest, commitmentStateRead ([0, 0, 0, 2] ++ rest) = .ok .Empty rest) ∧
    (∀ rest, commitmentStateRead ([0, 0, 0, 3] ++ rest) = .ok .Unknown rest) ∧
    (∀ rest, delegateStateRead ([0, 0, 0, 2] ++ rest) = .ok .Empty rest) ∧
    (∀ rest, delegateStateRead ([0, 0, 0, 3] ++ rest) = .ok .Unknown rest) ∧
    (∀ x enc rest, wfCommitmentState x = true →
        commitmentStateWrite x = some enc →
        commitmentStateRead (enc ++ rest) = .ok x rest) ∧
    (∀ x enc rest, wfDelegateState x = true → delegateStateWrite x = some enc →
        delegateStateRead (enc ++ rest) = .ok x rest) := by
  refine ⟨by decide, by decide, by decide, by decide, ?_, ?_, by decide, ?_,
    by decide, ?_, ?_, ?_, ?_, ?_,
    commitmentStateRead_roundtrip, delegateStateRead_roundtrip⟩
  · intro sr pr rh bh rc enc h
    cases c1 : bytesWrite sr with
    | none => simp [commitmentStateWrite, c1] at h
    | some e1 =>
    cases c2 : optionalBytesWrite pr with
    | none => simp [commitmentStateWrite, c1, c2] at h
    | some e2 =>
    cases c3 : bytesWrite rh with
    | none => simp [commitmentStateWrite, c1, c2, c3] at h
    | some e3 =>
    cases c5 : optionalBytesWrite rc with
    | none => simp [commitmentStateWrite, c1, c2, c3, c5] at h
    | some e5 =>
    simp only [commitmentStateWrite, c1, c2, c3, c5, Option.some_inj] at h
    cases h
    rw [writeInt32_one_as_u32be]
    rfl
  · intro sp d oc enc h
    cases c1 : bytesWrite sp with
    | none => simp [delegateStateWrite, c1] at h
    | some e1 =>
    cases c2 : optionalBytesWrite d with
    | none => simp [delegateStateWrite, c1, c2] at h
    | some e2 =>
    cases c3 : optionalOffchainDataWrite oc with
    | none => simp [delegateStateWrite, c1, c2, c3] at h
    | some e3 =>
    simp only [delegateStateWrite, c1, c2, c3, Option.some_inj] at h
    cases h
    rw [writeInt32_one_as_u32be]
    rfl
  · intro b e h
    simp [optionalBytesWrite, h, writeInt8]
  · intro o e h
    simp [optionalOffchainDataWrite, h, writeInt8]
  · intro rest
    rw [show ([0, 0, 0, 2] : List Nat) = u32be 2 from rfl,
      commitmentStateRead, ← writeInt32_two_as_u32be,
      readInt32_writeInt32_int 2 (by norm_num) (by norm_num) rest]
    norm_num
  · intro rest
    rw [show ([0, 0, 0, 3] : List Nat) = u32be 3 from by decide,
      commitmentStateRead, show u32be 3 = writeInt32 3 from by decide,
      readInt32_writeInt32_int 3 (by norm_num) (by norm_num) rest]
    norm_num
  · intro rest
    rw [show ([0, 0, 0, 2] : List Nat) = writeInt32 2 from by decide,
      delegateStateRead,
      readInt32_writeInt32_int 2 (by norm_num) (by norm_num) rest]
    norm_num
  · intro rest
    rw [show ([0, 0, 0, 3] : List Nat) = writeInt32 3 from by decide,
      delegateStateRead,
      readInt32_writeInt32_int 3 (by norm_num) (by norm_num) rest]
    norm_num

/-- C5 witness: the layout facts evaluated at a concrete `Exists` value and
a concrete optional payload. -/
theorem spec_c5_wire_layout_witness :
    ((commitmentStateWrite (.Exists [6] none [7] 1 none)).getD []).take 4 =
      [0, 0, 0, 1] ∧
    optionalBytesWrite (some [5]) = some (1 :: [0, 0, 0, 1, 5]) := by
  constructor
  · exact spec_c5_wire_layout.2.2.2.2.1 [6] none [7] 1 none _ (by decide)
  · exact spec_c5_wire_layout.2.2.2.2.2.2.2.1 [5] [0, 0, 0, 1, 5] (by decide)

/-- C6: strings and byte strings are encoded as a 4-byte length prefix equal
to the payload length followed by exactly the payload bytes, and every
multi-byte integer in the format is written most-significant byte first
(big-endian) and read back the same way. -/
theorem spec_c6_length_prefix_endianness :
    (∀ s : List Nat, s.length ≤ maxInt32 →
        stringWrite s = some ([s.length / 2 ^ 24 % 256, s.length / 2 ^ 16 % 256,
          s.length / 2 ^ 8 % 256, s.length % 256] ++ s)) ∧
    (∀ b : List Nat, b.length ≤ maxInt32 →
        bytesWrite b = some ([b.length / 2 ^ 24 % 256, b.length / 2 ^ 16 % 256,
          b.length / 2 ^ 8 % 256, b.length % 256] ++ b)) ∧
    (∀ s enc rest, stringWrite s = some enc →
        stringRead (enc ++ rest) = .ok s rest) ∧
    (∀ b enc rest, bytesWrite b = some enc →
        bytesRead (enc ++ rest) = .ok b rest) ∧
    (∀ n rest, n < 2 ^ 32 → readUint32 (writeUint32 n ++ rest) = .ok n rest) ∧
    (∀ n rest, n < 2 ^ 64 → readUint64 (writeUint64 n ++ rest) = .ok n rest) ∧
    (∀ v rest, 0 ≤ v → v < 2 ^ 31 →
        readInt32 (writeInt32 v ++ rest) = .ok v rest) := by
  refine ⟨?_, ?_, stringRead_roundtrip, bytesRead_roundtrip, ?_, ?_, ?_⟩
  · intro s hs
    rw [stringWrite, if_neg (by omega),
      writeInt32_ofNat s.length (by simp [maxInt32] at hs; omega)]
    rfl
  · intro b hb
    rw [bytesWrite, if_neg (by omega),
      writeInt32_ofNat b.length (by simp [maxInt32] at hb; omega)]
    rfl
  · intro n rest hn
    exact readUint32_u32be n hn rest
  · intro n rest hn
    exact readUint64_u64be n hn rest
  · intro v rest h0 h1
    exact readInt32_writeInt32_int v h0 h1 rest

/-- C6 witness: the layout and inverse laws at concrete values, including a
multi-byte word whose four bytes are pairwise distinct (so the order is
visibly most-significant first). -/
theorem spec_c6_length_prefix_endianness_witness :
    stringWrite [104, 105] = some ([0, 0, 0, 2] ++ [104, 105]) ∧
    readUint32 (writeUint32 16909060 ++ [9]) = .ok 16909060 [9] := by
  constructor
  · have h := spec_c6_length_prefix_endianness.1 [104, 105] (by decide)
    simpa using h
  · exact spec_c6_length_prefix_endianness.2.2.2.2.1 16909060 [9] (by decide)

/-- Go `C.RustCallStatus`: a status code (`int8`) and an error buffer. -/
structure RustCallStatus where
  code : Int
  errorBuf : List Nat
  deriving DecidableEq, Repr

/-- What the Go boundary does with a call status: return normally, return a
typed `VeritasError`, or raise a Go panic (an unstructured process-level
failure; the bindings never recover from it). -/
inductive CallOutcome where
  | success
  | typedError (e : VeritasErrorData)
  | goPanic
  deriving DecidableEq, Repr

/-- Go `LiftFromRustBuffer` specialised to the error converter: run
`FfiConverterVeritasError.Read` and panic (`none`) if the read itself
panics or if junk bytes remain in the buffer. -/
def liftVeritasError (buf : List Nat) : Option VeritasErrorData :=
  match errorRead buf with
  | .ok e [] => some e
  | _ => none

/-- Go `checkCallStatus` (with the `FfiConverterVeritasError` converter):
code 0 returns nil; code 1 lifts the typed error from the buffer; code 2
(a signalled core panic) re-panics on the Go side, with or without a
message; any unknown code also panics. -/
def checkCallStatus (s : RustCallStatus) : CallOutcome :=
  if s.code = 0 then .success
  else if s.code = 1 then
    match liftVeritasError s.errorBuf with
    | some e => .typedError e
    | none => .goPanic
  else .goPanic

/-- C4 counterexample: the claim says every call status is mapped "to
either a normal return or one of the two typed error kinds", never letting
the process crash.  On the code, `checkCallStatus` hits `case 2` for a
signalled core panic and itself calls Go `panic` — an unstructured failure,
not a typed error and not a normal return. -/
theorem spec_c4_counterexample :
    checkCallStatus ⟨2, [104, 105]⟩ = .goPanic := by decide

/-- C4 (amended): status 0 maps to a normal return and status 1 to one of
the two typed error kinds (when its buffer holds a well-formed error), but
a signalled core panic (status 2), an unknown status code, and a status-1
call with a malformed error buffer are all re-raised as Go panics rather
than being mapped to a typed error. -/
theorem spec_c4_status_mapping :
    (∀ s : RustCallStatus, s.code = 0 → checkCallStatus s = .success) ∧
    (∀ s : RustCallStatus, ∀ e, s.code = 1 → liftVeritasError s.errorBuf = some e →
        checkCallStatus s = .typedError e) ∧
    (∀ s : RustCallStatus, s.code = 1 → liftVeritasError s.errorBuf = none →
        checkCallStatus s = .goPanic) ∧
    (∀ s : RustCallStatus, s.code ≠ 0 → s.code ≠ 1 →
        checkCallStatus s = .goPanic) := by
  refine ⟨?_, ?_, ?_, ?_⟩
  · intro s h
    simp [checkCallStatus, h]
  · intro s e hc he
    simp [checkCallStatus, hc, he]
  · intro s hc he
    simp [checkCallStatus, hc, he]
  · intro s h0 h1
    simp [checkCallStatus, h0, h1]

/-- C4 witness: the amended mapping evaluated at concrete statuses for all
four branches. -/
theorem spec_c4_status_mapping_witness :
    checkCallStatus ⟨0, []⟩ = .success ∧
    checkCallStatus ⟨1, [0, 0, 0, 1, 0, 0, 0, 1, 104]⟩ =
      .typedError (.InvalidInput [104]) ∧
    checkCallStatus ⟨1, [7]⟩ = .goPanic ∧
    checkCallStatus ⟨3, []⟩ = .goPanic := by
  refine ⟨?_, ?_, ?_, ?_⟩
  · exact spec_c4_status_mapping.1 ⟨0, []⟩ (by decide)
  · exact spec_c4_status_mapping.2.1 ⟨1, [0, 0, 0, 1, 0, 0, 0, 1, 104]⟩
      (.InvalidInput [104]) (by decide) (by decide)
  · exact spec_c4_status_mapping.2.2.1 ⟨1, [7]⟩ (by decide) (by decide)
  · exact spec_c4_status_mapping.2.2.2 ⟨3, []⟩ (by decide) (by decide)

/-- Go `(*VeritasError).AsError`: a nil pointer becomes the nil error
interface; a non-nil pointer becomes an interface wrapping that pointer.
The model renders a Go error interface as `Option` of the wrapped pointer,
itself an `Option`: `some none` would be the non-nil interface wrapping a
nil pointer that the guard exists to rule out. -/
def asError (p : Option VeritasErrorData) : Option (Option VeritasErrorData) :=
  match p with
  | none => none
  | some e => some (some e)

/-- Result of a Go boundary call that returns only an `error`: either a
returned error interface or a Go panic. -/
inductive GoCallRet where
  | ret (e : Option (Option VeritasErrorData))
  | goPanic
  deriving DecidableEq, Repr

/-- The shared error path of `AddRequest`, `AddZone`, `VerifySchnorr` and
`VerifySpacesMessage`: run the call, pass the status through
`checkCallStatus` (= `rustCallWithError`), and return `err.AsError()`. -/
def errorReturningBoundary (s : RustCallStatus) : GoCallRet :=
  match checkCallStatus s with
  | .success => .ret (asError none)
  | .typedError e => .ret (asError (some e))
  | .goPanic => .goPanic

/-- C9: for the boundary operations returning a Go `error` (`AddRequest`,
`AddZone`, `VerifySchnorr`, `VerifySpacesMessage`), the returned interface
is nil exactly when the underlying call succeeded; `AsError` converts a nil
`*VeritasError` to the nil interface and never produces a non-nil
interface wrapping a nil pointer. -/
theorem spec_c9_nil_error_interface :
    (∀ p, asError p = none ↔ p = none) ∧
    (∀ p, asError p ≠ some none) ∧
    (∀ s r, errorReturningBoundary s = .ret r → (r = none ↔ s.code = 0)) ∧
    (∀ s r, errorReturningBoundary s = .ret r → r ≠ some none) := by
  refine ⟨?_, ?_, ?_, ?_⟩
  · intro p
    cases p <;> simp [asError]
  · intro p
    cases p <;> simp [asError]
  · intro s r h
    by_cases hc : s.code = 0
    · simp only [errorReturningBoundary, checkCallStatus, hc, if_pos rfl,
        asError] at h
      cases h
      simp [hc]
    · simp only [errorReturningBoundary, checkCallStatus, if_neg hc] at h
      by_cases hc1 : s.code = 1
      · rw [if_pos hc1] at h
        cases hl : liftVeritasError s.errorBuf with
        | none => rw [hl] at h; cases h
        | some e =>
            rw [hl] at h
            simp only [asError] at h
            cases h
            simp [hc]
      · rw [if_neg hc1] at h
        cases h
  · intro s r h
    by_cases hc : s.code = 0
    · simp only [errorReturningBoundary, checkCallStatus, hc, if_pos rfl,
        asError] at h
      cases h
      simp
    · simp only [errorReturningBoundary, checkCallStatus, if_neg hc] at h
      by_cases hc1 : s.code = 1
      · rw [if_pos hc1] at h
        cases hl : liftVeritasError s.errorBuf with
        | none => rw [hl] at h; cases h
        | some e =>
            rw [hl] at h
            simp only [asError] at h
            cases h
            simp
      · rw [if_neg hc1] at h
        cases h

/-- C9 witness: the nil-iff-success law evaluated at a concrete successful
status and a concrete failing one. -/
theorem spec_c9_nil_error_interface_witness :
    ((none : Option (Option VeritasErrorData)) = none ↔
      (⟨0, []⟩ : RustCallStatus).code = 0) ∧
    (some (some (VeritasErrorData.InvalidInput [104])) =
        (none : Option (Option VeritasErrorData)) ↔
      (⟨1, [0, 0, 0, 1, 0, 0, 0, 1, 104]⟩ : RustCallStatus).code = 0) := by
  constructor
  · exact spec_c9_nil_error_interface.2.2.1 ⟨0, []⟩ none (by decide)
  · exact spec_c9_nil_error_interface.2.2.1 ⟨1, [0, 0, 0, 1, 0, 0, 0, 1, 104]⟩
      (some (some (.InvalidInput [104]))) (by decide)

/-- The answers the compiled core's scaffolding gives to the version and
per-function checksum queries that `uniffiCheckChecksums` makes. -/
structure ScaffoldingContract where
  contractVersion : Nat
  funcDecodeCertificate : Nat
  funcDecodeZone : Nat
  funcHashSignableMessage : Nat
  funcVerifySchnorr : Nat
  funcVerifySpacesMessage : Nat
  methodVerifiedmessageCertificate : Nat
  methodVerifiedmessageCertificates : Nat
  methodVerifiedmessageZones : Nat
  methodVeritasIsFinalized : Nat
  methodVeritasNewestAnchor : Nat
  methodVeritasOldestAnchor : Nat
  methodVeritasSovereigntyFor : Nat
  methodVeritasVerifyMessage : Nat
  methodVeritasquerycontextAddRequest : Nat
  methodVeritasquerycontextAddZone : Nat
  methodVeritaszoneAnchor : Nat
  methodVeritaszoneCommitment : Nat
  methodVeritaszoneData : Nat
  methodVeritaszoneDelegate : Nat
  methodVeritaszoneHandle : Nat
  methodVeritaszoneIsBetterThan : Nat
  methodVeritaszoneOffchainData : Nat
  methodVeritaszoneScriptPubkey : Nat
  methodVeritaszoneSovereignty : Nat
  methodVeritaszoneToBytes : Nat
  methodVeritaszoneToJson : Nat
  constructorVeritasNew : Nat
  constructorVeritasanchorsFromJson : Nat
  constructorVeritasquerycontextNew : Nat
  deriving DecidableEq, Repr

/-- Go `uniffiCheckChecksums`, block by block in source order: the
scaffolding contract version must equal the bindings constant 26 and each
per-function checksum must equal its expected constant; the first mismatch
panics (`none`) with a diagnostic, and reaching the end does nothing. -/
def uniffiCheckChecksums (s : ScaffoldingContract) : Option Unit :=
  if s.contractVersion ≠ 26 then none
  else if s.funcDecodeCertificate ≠ 45631 then none
  else if s.funcDecodeZone ≠ 59384 then none
  else if s.funcHashSignableMessage ≠ 19660 then none
  else if s.funcVerifySchnorr ≠ 32215 then none
  else if s.funcVerifySpacesMessage ≠ 40969 then none
  else if s.methodVerifiedmessageCertificate ≠ 21477 then none
  else if s.methodVerifiedmessageCertificates ≠ 42989 then none
  else if s.methodVerifiedmessageZones ≠ 42512 then none
  else if s.methodVeritasIsFinalized ≠ 15029 then none
  else if s.methodVeritasNewestAnchor ≠ 205 then none
  else if s.methodVeritasOldestAnchor ≠ 57268 then none
  else if s.methodVeritasSovereigntyFor ≠ 5317 then none
  else if s.methodVeritasVerifyMessage ≠ 27729 then none
  else if s.methodVeritasquerycontextAddRequest ≠ 54635 then none
  else if s.methodVeritasquerycontextAddZone ≠ 32901 then none
  else if s.methodVeritaszoneAnchor ≠ 15552 then none
  else if s.methodVeritaszoneCommitment ≠ 46659 then none
  else if s.methodVeritaszoneData ≠ 11175 then none
  else if s.methodVeritaszoneDelegate ≠ 16818 then none
  else if s.methodVeritaszoneHandle ≠ 27124 then none
  else if s.methodVeritaszoneIsBetterThan ≠ 11445 then none
  else if s.methodVeritaszoneOffchainData ≠ 13766 then none
  else if s.methodVeritaszoneScriptPubkey ≠ 23903 then none
  else if s.methodVeritaszoneSovereignty ≠ 63614 then none
  else if s.methodVeritaszoneToBytes ≠ 44775 then none
  else if s.methodVeritaszoneToJson ≠ 44380 then none
  else if s.constructorVeritasNew ≠ 31646 then none
  else if s.constructorVeritasanchorsFromJson ≠ 4349 then none
  else if s.constructorVeritasquerycontextNew ≠ 19819 then none
  else some ()

/-- Go `init`: its whole body is the single call to `uniffiCheckChecksums`. -/
def packageInitialization (s : ScaffoldingContract) : Option Unit :=
  uniffiCheckChecksums s

/-- The expected contract: version 26 and every per-function checksum equal
to its constant from the bindings. -/
def expectedContract (s : ScaffoldingContract) : Prop :=
  s.contractVersion = 26 ∧ s.funcDecodeCertificate = 45631 ∧
  s.funcDecodeZone = 59384 ∧ s.funcHashSignableMessage = 19660 ∧
  s.funcVerifySchnorr = 32215 ∧ s.funcVerifySpacesMessage = 40969 ∧
  s.methodVerifiedmessageCertificate = 21477 ∧
  s.methodVerifiedmessageCertificates = 42989 ∧
  s.methodVerifiedmessageZones = 42512 ∧
  s.methodVeritasIsFinalized = 15029 ∧
  s.methodVeritasNewestAnchor = 205 ∧
  s.methodVeritasOldestAnchor = 57268 ∧
  s.methodVeritasSovereigntyFor = 5317 ∧
  s.methodVeritasVerifyMessage = 27729 ∧
  s.methodVeritasquerycontextAddRequest = 54635 ∧
  s.methodVeritasquerycontextAddZone = 32901 ∧
  s.methodVeritaszoneAnchor = 15552 ∧
  s.methodVeritaszoneCommitment = 46659 ∧
  s.methodVeritaszoneData = 11175 ∧
  s.methodVeritaszoneDelegate = 16818 ∧
  s.methodVeritaszoneHandle = 27124 ∧
  s.methodVeritaszoneIsBetterThan = 11445 ∧
  s.methodVeritaszoneOffchainData = 13766 ∧
  s.methodVeritaszoneScriptPubkey = 23903 ∧
  s.methodVeritaszoneSovereignty = 63614 ∧
  s.methodVeritaszoneToBytes = 44775 ∧
  s.methodVeritaszoneToJson = 44380 ∧
  s.constructorVeritasNew = 31646 ∧
  s.constructorVeritasanchorsFromJson = 4349 ∧
  s.constructorVeritasquerycontextNew = 19819

/-- C8: package initialization performs exactly the one-time self-check:
it succeeds (and then has no other effect — `init`'s body is the single
call) precisely when the scaffolding contract version equals the bindings
constant 26 and every per-function checksum equals its expected constant;
any mismatch aborts initialization (Go panic with a diagnostic). -/
theorem checksum_gate_iff (x c : Nat) (rest : Option Unit) :
    ((if x ≠ c then none else rest) = some ()) ↔ (x = c ∧ rest = some ()) := by
  by_cases hx : x = c <;> simp [hx]

theorem spec_c8_startup_selfcheck :
    (∀ s, packageInitialization s = uniffiCheckChecksums s) ∧
    (∀ s, uniffiCheckChecksums s = some () ↔ expectedContract s) := by
  refine ⟨fun s => rfl, ?_⟩
  intro s
  rw [uniffiCheckChecksums, expectedContract]
  simp only [checksum_gate_iff]
  simp

/-- Go `FfiObject` state: the atomic call counter, the atomic destroyed
flag, and (for the model) how many times the Rust free function has run. -/
structure FfiObject where
  callCounter : Int
  destroyed : Bool
  frees : Nat
  deriving DecidableEq, Repr

/-- A freshly lifted object: counter 0, not destroyed, never freed. -/
def freshFfiObject : FfiObject := ⟨0, false, 0⟩

/-- `math.MaxInt64`, the overflow guard in `incrementPointer`. -/
def maxInt64 : Int := 2 ^ 63 - 1

/-- Outcome of Go `FfiObject.incrementPointer`: entry to a method body, or
one of its two panics. -/
inductive IncResult where
  | ok (o : FfiObject)
  | panickedDestroyed
  | panickedOverflow
  deriving DecidableEq, Repr

/-- Go `FfiObject.incrementPointer`: panic "object has already been
destroyed" when the counter is at or below -1, panic on overflow at
`MaxInt64`, otherwise bump the counter (the CAS loop, sequentially). -/
def FfiObject.incrementPointer (o : FfiObject) : IncResult :=
  if o.callCounter ≤ -1 then .panickedDestroyed
  else if o.callCounter = maxInt64 then .panickedOverflow
  else .ok { o with callCounter := o.callCounter + 1 }

/-- Go `FfiObject.freeRustArcPtr`: invoke the Rust free function once. -/
def FfiObject.freeRustArcPtr (o : FfiObject) : FfiObject :=
  { o with frees := o.frees + 1 }

/-- Go `FfiObject.decrementPointer`: drop the counter; the caller that
takes it to -1 frees the underlying Rust Arc. -/
def FfiObject.decrementPointer (o : FfiObject) : FfiObject :=
  if o.callCounter - 1 = -1 then
    FfiObject.freeRustArcPtr { o with callCounter := o.callCounter - 1 }
  else { o with callCounter := o.callCounter - 1 }

/-- Go `FfiObject.destroy`: the compare-and-swap on the destroyed flag
makes only the first call act; that call gives up the construction-time
reference and frees if it was the last one. -/
def FfiObject.destroy (o : FfiObject) : FfiObject :=
  if o.destroyed then o
  else if o.callCounter - 1 = -1 then
    FfiObject.freeRustArcPtr
      { o with destroyed := true, callCounter := o.callCounter - 1 }
  else { o with destroyed := true, callCounter := o.callCounter - 1 }

/-- The two kinds of event a caller can submit to one object: a method
call (`incrementPointer`, body, deferred `decrementPointer`) or `Destroy`. -/
inductive FfiEvent where
  | methodCall
  | destroyCall
  deriving DecidableEq, Repr

/-- Sequential execution of a trace of events against an object.  A method
call whose `incrementPointer` panics leaves the state unchanged (the panic
unwinds before any mutation). -/
def runTrace (o : FfiObject) : List FfiEvent → FfiObject
  | [] => o
  | .methodCall :: tr =>
      match o.incrementPointer with
      | .ok o2 => runTrace o2.decrementPointer tr
      | _ => runTrace o tr
  | .destroyCall :: tr => runTrace o.destroy tr

/-- The reachable states of an object under balanced sequential use:
either alive (counter 0, never freed) or destroyed (counter -1, freed
exactly once). -/
def ffiInvariant (o : FfiObject) : Prop :=
  (o.destroyed = false ∧ o.callCounter = 0 ∧ o.frees = 0) ∨
  (o.destroyed = true ∧ o.callCounter = -1 ∧ o.frees = 1)

theorem ffiInvariant_runTrace (o : FfiObject) (tr : List FfiEvent)
    (h : ffiInvariant o) : ffiInvariant (runTrace o tr) := by
  induction tr generalizing o with
  | nil => exact h
  | cons ev tr ih =>
      cases ev with
      | methodCall =>
          rcases h with ⟨hd, hc, hf⟩ | ⟨hd, hc, hf⟩
          · have hinc : o.incrementPointer =
                .ok { o with callCounter := o.callCounter + 1 } := by
              rw [FfiObject.incrementPointer, if_neg (by omega),
                if_neg (by rw [hc]; decide)]
            rw [runTrace, hinc]
            apply ih
            left
            simp [FfiObject.decrementPointer, FfiObject.freeRustArcPtr, hc,
              hd, hf]
          · have hinc : o.incrementPointer = .panickedDestroyed := by
              rw [FfiObject.incrementPointer, if_pos (by omega)]
            rw [runTrace, hinc]
            exact ih o (Or.inr ⟨hd, hc, hf⟩)
      | destroyCall =>
          rcases h with ⟨hd, hc, hf⟩ | ⟨hd, hc, hf⟩
          · rw [runTrace]
            apply ih
            right
            simp [FfiObject.destroy, FfiObject.freeRustArcPtr, hd, hc, hf]
          · rw [runTrace]
            apply ih
            right
            simp [FfiObject.destroy, hd, hc, hf]

/-- C10: for every FFI-backed object, `Destroy` is idempotent and — over
any sequence of method calls and destroys from a fresh object — the Rust
free function runs at most once; once the object is destroyed, every
subsequent method call panics with the "object has already been destroyed"
diagnostic instead of calling into the freed core object. -/
theorem spec_c10_destroy_lifecycle :
    (∀ o : FfiObject, o.destroy.destroy = o.destroy) ∧
    (∀ tr : List FfiEvent, (runTrace freshFfiObject tr).frees ≤ 1) ∧
    (∀ tr : List FfiEvent, (runTrace freshFfiObject tr).destroyed = true →
        (runTrace freshFfiObject tr).incrementPointer = .panickedDestroyed) := by
  refine ⟨?_, ?_, ?_⟩
  · intro o
    have h : o.destroy.destroyed = true := by
      rw [FfiObject.destroy]
      split
      · rename_i hd
        exact hd
      · split <;> rfl
    nth_rewrite 1 [FfiObject.destroy]
    rw [if_pos h]
  · intro tr
    have h := ffiInvariant_runTrace freshFfiObject tr
      (Or.inl ⟨rfl, rfl, rfl⟩)
    rcases h with ⟨_, _, hf⟩ | ⟨_, _, hf⟩ <;> omega
  · intro tr hdes
    have h := ffiInvariant_runTrace freshFfiObject tr
      (Or.inl ⟨rfl, rfl, rfl⟩)
    rcases h with ⟨hd, _, _⟩ | ⟨_, hc, _⟩
    · rw [hd] at hdes
      cases hdes
    · rw [FfiObject.incrementPointer, if_pos (by omega)]

/-- C10 witness: a destroy followed by a second destroy and a method call
on the concrete fresh object — the free count stays 1 and the method call
panics with the destroyed diagnostic. -/
theorem spec_c10_destroy_lifecycle_witness :
    (runTrace freshFfiObject [.destroyCall, .destroyCall]).frees ≤ 1 ∧
    (runTrace freshFfiObject [.destroyCall]).incrementPointer =
      .panickedDestroyed := by
  constructor
  · exact spec_c10_destroy_lifecycle.2.1 [.destroyCall, .destroyCall]
  · exact spec_c10_destroy_lifecycle.2.2 [.destroyCall] (by decide)

/-- Modelled from the spec: the core's two error kinds as seen at the
spec level (§6), messages as readable strings. -/
inductive SpecVError where
  | invalidInput (message : String)
  | verificationFailed (message : String)
  deriving DecidableEq, Repr

/-- Modelled from the spec: the decoded `Zone` snapshot of §3 (the Rust
core type behind the `VeritasZone` handle; only its FFI accessors appear
in the Go bindings). -/
structure SpecZone where
  handle : String
  anchor : Nat
  commitment : VeritasCommitmentState
  delegate : VeritasDelegateState
  scriptPubkey : List Nat
  data : Option (List Nat)
  offchainData : Option VeritasOffchainData
  deriving DecidableEq, Repr

/-- Modelled from the spec: §4.4 ordering rule (2), "`Exists` beats
`Empty`, which beats `Unknown` — more information is preferred". -/
def commitmentRank : VeritasCommitmentState → Nat
  | .Exists _ _ _ _ _ => 2
  | .Empty => 1
  | .Unknown => 0

/-- Modelled from the spec: §4.4 ordering rule (3) — zone `a` "chains
correctly" from zone `b` when `a`'s `prevRoot` links to `b`'s `stateRoot`
and `a`'s `rollingHash` is the deterministic chain function (§3, abstract
parameter `hashStep`) of `b`'s rolling hash and `a`'s new state root. -/
def chainsFrom (hashStep : List Nat → List Nat → List Nat)
    (a b : SpecZone) : Bool :=
  match a.commitment, b.commitment with
  | .Exists sa pa ra _ _, .Exists sb _ rb _ _ =>
      decide (pa = some sb ∧ ra = hashStep rb sa)
  | _, _ => false

/-- Modelled from the spec: `VeritasZone.IsBetterThan` only forwards into
the compiled Rust core, which is not part of this repository's sources, so
the fork-choice contract of §4.4 is modelled from the spec's words:
different handles are `InvalidInput`; the predicate is irreflexive by
contract; rule (1) higher anchor height wins; rule (2) commitment kind
rank decides at equal height; rule (3) correct rolling-hash chaining
decides at equal height and kind, and when neither side chains the
comparison is itself a protocol violation (`VerificationFailed`). -/
def isBetterThan (hashStep : List Nat → List Nat → List Nat)
    (a b : SpecZone) : Except SpecVError Bool :=
  if a.handle ≠ b.handle then
    .error (.invalidInput "zones reference different handles")
  else if a = b then .ok false
  else if a.anchor ≠ b.anchor then .ok (decide (b.anchor < a.anchor))
  else if commitmentRank a.commitment ≠ commitmentRank b.commitment then
    .ok (decide (commitmentRank b.commitment < commitmentRank a.commitment))
  else if chainsFrom hashStep a b then .ok true
  else if chainsFrom hashStep b a then .ok false
  else .error (.verificationFailed "conflicting states with no chain linkage")

/-- C7: the fork-choice predicate is irreflexive; for two zones of the same
handle with distinct anchor heights exactly one direction returns true; and
comparing zones of different handles fails with `InvalidInput` rather than
returning a boolean. -/
theorem spec_c7_fork_choice :
    (∀ hashStep (a : SpecZone), isBetterThan hashStep a a = .ok false) ∧
    (∀ hashStep (a b : SpecZone), a.handle = b.handle → a.anchor ≠ b.anchor →
        ((isBetterThan hashStep a b = .ok true ∧
          isBetterThan hashStep b a = .ok false) ∨
         (isBetterThan hashStep a b = .ok false ∧
          isBetterThan hashStep b a = .ok true))) ∧
    (∀ hashStep (a b : SpecZone), a.handle ≠ b.handle →
        isBetterThan hashStep a b =
          .error (.invalidInput "zones reference different handles")) := by
  refine ⟨?_, ?_, ?_⟩
  · intro hs a
    simp [isBetterThan]
  · intro hs a b hh ha
    have hne : a ≠ b := fun he => ha (by rw [he])
    have h1 : isBetterThan hs a b = .ok (decide (b.anchor < a.anchor)) := by
      rw [isBetterThan, if_neg (by simp [hh]), if_neg hne, if_pos ha]
    have h2 : isBetterThan hs b a = .ok (decide (a.anchor < b.anchor)) := by
      rw [isBetterThan, if_neg (by simp [hh]), if_neg (Ne.symm hne),
        if_pos (Ne.symm ha)]
    rcases Nat.lt_or_ge a.anchor b.anchor with hlt | hge
    · right
      refine ⟨?_, ?_⟩
      · rw [h1]
        congr 1
        exact decide_eq_false (by omega)
      · rw [h2]
        congr 1
        exact decide_eq_true hlt
    · have hgt : b.anchor < a.anchor := by omega
      left
      refine ⟨?_, ?_⟩
      · rw [h1]
        congr 1
        exact decide_eq_true hgt
      · rw [h2]
        congr 1
        exact decide_eq_false (by omega)
  · intro hs a b hh
    rw [isBetterThan, if_pos hh]

/-- Concrete stand-in for the abstract rolling-hash chain function, used
only by the fork-choice witness. -/
def sampleHashStep (prior root : List Nat) : List Nat := prior ++ root

/-- Sample zones for the fork-choice witness. -/
def sampleZoneA : SpecZone :=
  ⟨"alice@bitcoin", 20, .Empty, .Empty, [1], none, none⟩

def sampleZoneB : SpecZone :=
  ⟨"alice@bitcoin", 10, .Unknown, .Unknown, [2], none, none⟩

def sampleZoneC : SpecZone :=
  ⟨"bob@bitcoin", 20, .Empty, .Empty, [3], none, none⟩

/-- C7 witness: the fork-choice laws evaluated at concrete zones — same
handle with anchors 20 and 10, and two different handles. -/
theorem spec_c7_fork_choice_witness :
    ((isBetterThan sampleHashStep sampleZoneA sampleZoneB = .ok true ∧
      isBetterThan sampleHashStep sampleZoneB sampleZoneA = .ok false) ∨
     (isBetterThan sampleHashStep sampleZoneA sampleZoneB = .ok false ∧
      isBetterThan sampleHashStep sampleZoneB sampleZoneA = .ok true)) ∧
    isBetterThan sampleHashStep sampleZoneA sampleZoneC =
      .error (.invalidInput "zones reference different handles") := by
  constructor
  · exact spec_c7_fork_choice.2.1 sampleHashStep sampleZoneA sampleZoneB rfl
      (by decide)
  · exact spec_c7_fork_choice.2.2 sampleHashStep sampleZoneA sampleZoneC
      (by decide)

end LibveritasUniffi
